import Mathlib

/-!
# Contact book API: the contacts router

A verification development for `src/routes/contacts.router.js`.

The module creates one router with `express.Router()` (default options: routing is not
strict and not case sensitive) and exports `setup(app)`, which mounts that router on the
application under `/api/v1/contacts` and registers eight routes on it, in this order:

    router.get('/', contactsController.getContactsByFilter)
    router.post('/', avatarUpload, contactsController.createContact)
    router.delete('/', contactsController.deleteAllContacts)
    router.all('/', methodNotAllowed)
    router.get('/:id', contactsController.getContact)
    router.put('/:id', avatarUpload, contactsController.updateContact)
    router.delete('/:id', contactsController.deleteContact)
    router.all('/:id', methodNotAllowed)

The embedding keeps the route table as data and gives the calls the meaning they have in
Express 4:

* a router scans its stack in registration order; a layer is taken when its path pattern
  matches the path of the request and its route handles the method of the request;
* `router.all` handles every method, and a route made by `router.get` also handles HEAD,
  because it has no handler for HEAD of its own;
* the router is not strict, so a pattern also matches the path with one more slash at the
  end;
* `app.use(path, router)` matches `path` as a prefix that ends at a segment boundary,
  without regard to letter case unless the application enables case sensitive routing,
  and the router sees the rest of the path;
* the handlers of a route run in the order they were passed, each one only when the one
  before it passed control on; when the last one passes control on the scan of the stack
  resumes behind the layer.

A path is the text of the URL before the query string, as written.  `dispatch`, `scan` and
`handle` describe the route table on that text.  Express also passes the text captured for
`:id` through `decodeURIComponent` while it matches a layer and refuses the request with
400 when an escape is malformed: `matchLayer`, `selectRoute` and `route` add this step, and
`pathname` the step from the URL to the path.  The two descriptions agree whenever the
captured text decodes (`route_eq_handle`).  What the handlers themselves do is outside the
module: a handler is represented by whether it passes control on.
-/

namespace ContactsRouter

/-- Request methods, the members of Node's `http.METHODS`. -/
inductive Method where
  | ACL | BIND | CHECKOUT | CONNECT | COPY | DELETE | GET | HEAD | LINK | LOCK
  | MSEARCH | MERGE | MKACTIVITY | MKCALENDAR | MKCOL | MOVE | NOTIFY | OPTIONS
  | PATCH | POST | PROPFIND | PROPPATCH | PURGE | PUT | QUERY | REBIND | REPORT
  | SEARCH | SOURCE | SUBSCRIBE | TRACE | UNBIND | UNLINK | UNLOCK | UNSUBSCRIBE
  deriving DecidableEq, Repr

/-- The functions the router refers to: the six exports of `contactsController` it uses,
the `avatarUpload` middleware and `methodNotAllowed` of the errors controller. -/
inductive Handler where
  | getContactsByFilter
  | createContact
  | deleteAllContacts
  | getContact
  | updateContact
  | deleteContact
  | avatarUpload
  | methodNotAllowed
  deriving DecidableEq, Repr

/-- The registration call a route was made with: `router.get`, `router.post`,
`router.put`, `router.delete` or `router.all`. -/
inductive Verb where
  | get | post | put | delete | all
  deriving DecidableEq, Repr

/-- The two path patterns of the module: `'/'` and `'/:id'`. -/
inductive Pattern where
  | root
  | id
  deriving DecidableEq, Repr

/-- A path is the list of its characters, as written in the URL. -/
abbrev Path := List Char

/-- One entry of the router's stack: the pattern and verb of the registration call, the
handlers passed to it in order, and `params`, the slot in which the layer keeps the
outcome of its latest match. -/
structure Layer where
  pattern : Pattern
  verb : Verb
  handlers : List Handler
  params : Option Path := none
  deriving DecidableEq, Repr

/-- Whether a route registered with `v` handles method `m`: `all` handles every method,
and a route that has a `get` handler and no `head` handler also handles `HEAD`. -/
def handlesMethod : Verb → Method → Bool
  | .all, _ => true
  | .get, .GET => true
  | .get, .HEAD => true
  | .post, .POST => true
  | .put, .PUT => true
  | .delete, .DELETE => true
  | _, _ => false

/-- The pattern `'/'` of a non-strict router, `^\/?$`: the empty path and `/`. -/
def matchRoot (p : Path) : Bool :=
  p == [] || p == ['/']

/-- The pattern `'/:id'` of a non-strict router, `^\/([^\/]+?)\/?$`: a slash, one or more
characters other than a slash (the captured `id`), an optional final slash. -/
def matchId : Path → Option Path
  | '/' :: rest =>
      let seg := rest.takeWhile (fun c => c != '/')
      let tail := rest.dropWhile (fun c => c != '/')
      if seg != [] && (tail == [] || tail == ['/']) then some seg else none
  | _ => none

/-- Matching a path against a pattern; `some` carries what the pattern captured. -/
def matchPattern : Pattern → Path → Option Path
  | .root, p => if matchRoot p then some [] else none
  | .id, p => matchId p

/-- A layer is taken for a request when its pattern matches and its route handles the
method. -/
def Layer.accepts (l : Layer) (m : Method) (p : Path) : Bool :=
  (matchPattern l.pattern p).isSome && handlesMethod l.verb m

/-- The eight registrations of `setup`, in source order. -/
def contactLayers : List Layer :=
  [ { pattern := .root, verb := .get, handlers := [.getContactsByFilter] },
    { pattern := .root, verb := .post, handlers := [.avatarUpload, .createContact] },
    { pattern := .root, verb := .delete, handlers := [.deleteAllContacts] },
    { pattern := .root, verb := .all, handlers := [.methodNotAllowed] },
    { pattern := .id, verb := .get, handlers := [.getContact] },
    { pattern := .id, verb := .put, handlers := [.avatarUpload, .updateContact] },
    { pattern := .id, verb := .delete, handlers := [.deleteContact] },
    { pattern := .id, verb := .all, handlers := [.methodNotAllowed] } ]

/-- The application passed to `setup` and the module-level router: the application's
setting `case sensitive routing` (off unless the application enables it), the paths under
which the router has been mounted on it, and the router's stack. -/
structure World where
  caseSensitive : Bool
  mounts : List Path
  stack : List Layer
  deriving DecidableEq, Repr

/-- The path under which `setup` mounts the router. -/
def mountPath : Path := "/api/v1/contacts".toList

/-- An application with the given case sensitivity on which `setup` has not run. -/
def fresh (cs : Bool) : World :=
  { caseSensitive := cs, mounts := [], stack := [] }

/-- The function `setup(app)`: `app.use('/api/v1/contacts', router)` followed by the eight
registrations, each appending to the stack of the one module-level router. -/
def setup (w : World) : World :=
  { w with mounts := w.mounts ++ [mountPath], stack := w.stack ++ contactLayers }

/-- First match: the handler chain of the first layer of the stack that accepts the
request, `none` when no layer does. -/
def dispatch (stack : List Layer) (m : Method) (p : Path) : Option (List Handler) :=
  (stack.find? (fun l => l.accepts m p)).map Layer.handlers

/-- Running a handler chain: handlers run in order, and the next one runs only if the one
before passed control on (`callsNext`).  The result is the handlers that ran and whether
the last of the chain passed control on. -/
def runChain (callsNext : Handler → Bool) : List Handler → List Handler × Bool
  | [] => ([], true)
  | h :: hs =>
      if callsNext h then ((h :: (runChain callsNext hs).1), (runChain callsNext hs).2)
      else ([h], false)

/-- The scan of the router's stack for a request: layers are visited in order, the chain
of every accepting layer runs, and the scan goes on past a layer only when its chain passed
control on.  The result is the handlers that ran, in order, and whether the scan ran off
the end of the stack. -/
def scan (callsNext : Handler → Bool) (m : Method) (p : Path) :
    List Layer → List Handler × Bool
  | [] => ([], true)
  | l :: ls =>
      if l.accepts m p then
        if (runChain callsNext l.handlers).2 then
          ((runChain callsNext l.handlers).1 ++ (scan callsNext m p ls).1,
            (scan callsNext m p ls).2)
        else ((runChain callsNext l.handlers).1, false)
      else scan callsNext m p ls

/-- The automatic answer to OPTIONS: when the scan of an OPTIONS request runs off the end
of the stack and some layer matched the path without handling the method, the router
answers the request itself with the methods of those layers. -/
def autoOptions (m : Method) (p : Path) (stack : List Layer) : Bool :=
  match m with
  | .OPTIONS => stack.any (fun l => (matchPattern l.pattern p).isSome && !handlesMethod l.verb m)
  | _ => false

/-- The router handling a request: the handlers that ran, in order, and whether the
request left the router unanswered (the scan ran off the end and the router did not answer
it itself). -/
def handle (callsNext : Handler → Bool) (m : Method) (p : Path) (stack : List Layer) :
    List Handler × Bool :=
  ((scan callsNext m p stack).1, (scan callsNext m p stack).2 && !autoOptions m p stack)

/-- The part of a layer that registration fixes: pattern, verb and handlers. -/
def Layer.route (l : Layer) : Pattern × Verb × List Handler :=
  (l.pattern, l.verb, l.handlers)

/-- Matching a path against a layer stores the outcome in the layer's `params` slot. -/
def Layer.visit (l : Layer) (p : Path) : Layer :=
  { l with params := matchPattern l.pattern p }

/-- The stack after the router handled a request: every layer the scan reached has the
outcome of its match stored; the layers behind the point where the scan stopped are
untouched. -/
def record (callsNext : Handler → Bool) (m : Method) (p : Path) : List Layer → List Layer
  | [] => []
  | l :: ls =>
      if l.accepts m p then
        if (runChain callsNext l.handlers).2 then l.visit p :: record callsNext m p ls
        else l.visit p :: ls
      else l.visit p :: record callsNext m p ls

/-- Comparing a character of a mount path with a character of the request path: exact when
the application routes case sensitively, otherwise up to the case of ASCII letters. -/
def sameChar (cs : Bool) (a b : Char) : Bool :=
  if cs then a == b else a.toLower == b.toLower

/-- Removing a literal from the front of a path, comparing characters with `sameChar`. -/
def stripLeading (cs : Bool) : Path → Path → Option Path
  | [], rest => some rest
  | _ :: _, [] => none
  | a :: pre, b :: rest => if sameChar cs a b then stripLeading cs pre rest else none

/-- Matching a mount made by `app.use(path, router)` for a literal path, whose regular
expression is the literal followed by `\/?(?=\/|$)`: after the literal the path must end
or go on with a slash; that slash is removed together with the literal when another slash
follows it or the path ends there, and what remains, given a leading slash when it has
none, is the path the router sees. -/
def mountMatch (cs : Bool) (pre p : Path) : Option Path :=
  match stripLeading cs pre p with
  | none => none
  | some [] => some ['/']
  | some (c :: r) =>
      if c == '/' then (if r.head? == some '/' then some r else some ('/' :: r)) else none

/-- A request as the application receives it: method, path and query string of the URL.
Routing reads the method and the path. -/
structure Request where
  method : Method
  path : Path
  query : Option Path := none
  deriving DecidableEq, Repr

/-- The application passing a request down its mounts of the router, in order: a mount
that matches hands the router the path relative to the mount path, the router handles it
on its current stack, and the next mount is tried only if the request left the router
unanswered.  The result is the stack afterwards, the handlers that ran and whether the
request is still unanswered. -/
def serveMounts (callsNext : Handler → Bool) (cs : Bool) (req : Request) :
    List Path → List Layer → List Layer × List Handler × Bool
  | [], stack => (stack, [], true)
  | pre :: rest, stack =>
      match mountMatch cs pre req.path with
      | none => serveMounts callsNext cs req rest stack
      | some rel =>
          if (handle callsNext req.method rel stack).2 then
            let r := serveMounts callsNext cs req rest (record callsNext req.method rel stack)
            (r.1, (handle callsNext req.method rel stack).1 ++ r.2.1, r.2.2)
          else (record callsNext req.method rel stack,
                (handle callsNext req.method rel stack).1, false)

/-- Serving one request: the world afterwards and what ran. -/
def serve (callsNext : Handler → Bool) (w : World) (req : Request) :
    World × List Handler × Bool :=
  let r := serveMounts callsNext w.caseSensitive req w.mounts w.stack
  ({ w with stack := r.1 }, r.2)

/-- First match seen from the application: the chain of the first accepting layer of the
router under the first mount that matches the path and under which a layer accepts. -/
def appDispatch (w : World) (req : Request) : Option (List Handler) :=
  w.mounts.findSome? (fun pre =>
    (mountMatch w.caseSensitive pre req.path).bind (fun rel => dispatch w.stack req.method rel))

/-- Serving a sequence of requests one after the other, each with its own handler
behaviour; the world after the last one. -/
def serveAll (w : World) (history : List ((Handler → Bool) × Request)) : World :=
  history.foldl (fun acc x => (serve x.1 acc x.2).1) w

/-- The six controller functions. -/
def Handler.isController : Handler → Bool
  | .avatarUpload => false
  | .methodNotAllowed => false
  | _ => true

/-- A non-empty path segment: at least one character, none of them a slash. -/
def isSegment (s : Path) : Prop := s ≠ [] ∧ '/' ∉ s

instance (s : Path) : Decidable (isSegment s) := by unfold isSegment; infer_instance

/-- The router-relative collection path `/`. -/
def collectionPath : Path := ['/']

/-- The router-relative item path `/{id}`. -/
def itemPath (id : Path) : Path := '/' :: id

/-- A router-relative path of the item shape: a slash followed by one non-empty
segment. -/
def isItemPath : Path → Prop
  | '/' :: id => isSegment id
  | _ => False

instance (p : Path) : Decidable (isItemPath p) := by
  unfold isItemPath; split <;> infer_instance

/-- The path lies under `/api/v1/contacts`: it is that path, or it starts with that path
and a slash. -/
def underMount (p : Path) : Prop :=
  p = mountPath ∨ (mountPath ++ ['/']) <+: p

instance (p : Path) : Decidable (underMount p) := by unfold underMount; infer_instance

/-- The request path is offered to the router's route table: some mount of the router
matches it. -/
def offered (w : World) (p : Path) : Bool :=
  w.mounts.any (fun pre => (mountMatch w.caseSensitive pre p).isSome)

/-- The path lies under `/api/v1/contacts` when characters are compared with `sameChar`:
it starts with a text that equals that path character by character under `sameChar`, and
ends there or goes on with a slash. -/
def underMountFold (cs : Bool) (p : Path) : Prop :=
  ∃ pre rest, p = pre ++ rest ∧ List.Forall₂ (fun a b => sameChar cs a b = true) mountPath pre ∧
    (rest = [] ∨ ∃ r, rest = '/' :: r)

/-- A router-relative path of the item shape followed by one more slash. -/
def isItemPathSlash (p : Path) : Prop :=
  p.getLast? = some '/' ∧ isItemPath p.dropLast

instance (p : Path) : Decidable (isItemPathSlash p) := by
  unfold isItemPathSlash; infer_instance

/-- The chain selected on the collection path, by method. -/
def collectionChain : Method → List Handler
  | .GET => [.getContactsByFilter]
  | .HEAD => [.getContactsByFilter]
  | .POST => [.avatarUpload, .createContact]
  | .DELETE => [.deleteAllContacts]
  | _ => [.methodNotAllowed]

/-- The chain selected on an item path, by method. -/
def itemChain : Method → List Handler
  | .GET => [.getContact]
  | .HEAD => [.getContact]
  | .PUT => [.avatarUpload, .updateContact]
  | .DELETE => [.deleteContact]
  | _ => [.methodNotAllowed]

/-- The request is dispatched to controller `c`: a route is selected, `c` is the last
handler of its chain and `methodNotAllowed` is not in the chain. -/
def dispatchesTo (stack : List Layer) (m : Method) (p : Path) (c : Handler) : Prop :=
  ∃ chain, dispatch stack m p = some chain ∧ chain.getLast? = some c ∧
    Handler.methodNotAllowed ∉ chain

/-- The handlers of the layers that pass the acceptance test `acc`, in stack order. -/
def chainsOf (acc : Layer → Bool) : List Layer → List Handler
  | [] => []
  | l :: ls => if acc l then l.handlers ++ chainsOf acc ls else chainsOf acc ls

/-! ## The URL and the decoding of the captured text -/

/-- The value of a hexadecimal digit. -/
def hexDigit (c : Char) : Option Nat :=
  if '0' ≤ c ∧ c ≤ '9' then some (c.toNat - '0'.toNat)
  else if 'a' ≤ c ∧ c ≤ 'f' then some (c.toNat - 'a'.toNat + 10)
  else if 'A' ≤ c ∧ c ≤ 'F' then some (c.toNat - 'A'.toNat + 10)
  else none

/-- First pass of `decodeURIComponent`: every `%` must be followed by two hexadecimal
digits and stands for one octet; every other character stands for itself. -/
def unescape : List Char → Option (List (Char ⊕ Nat))
  | [] => some []
  | c :: rest =>
      if c = '%' then
        match rest with
        | a :: b :: more =>
            match hexDigit a, hexDigit b, unescape more with
            | some x, some y, some r => some (.inr (16 * x + y) :: r)
            | _, _, _ => none
        | _ => none
      else (unescape rest).map (fun r => .inl c :: r)

/-- A continuation octet of UTF-8, `80` to `BF`. -/
def isCont (b : Nat) : Bool := 0x80 ≤ b && b ≤ 0xBF

/-- Second pass of `decodeURIComponent`: the escaped octets must spell well-formed UTF-8,
each sequence written as consecutive escapes, and each sequence becomes its character. -/
def utf8Decode : List (Char ⊕ Nat) → Option (List Char)
  | [] => some []
  | .inl c :: rest => (utf8Decode rest).map (fun r => c :: r)
  | .inr b :: rest =>
      if b < 0x80 then (utf8Decode rest).map (fun r => Char.ofNat b :: r)
      else if 0xC2 ≤ b ∧ b ≤ 0xDF then
        match rest with
        | .inr b1 :: more =>
            if isCont b1 then
              (utf8Decode more).map (fun r => Char.ofNat ((b - 0xC0) * 64 + (b1 - 0x80)) :: r)
            else none
        | _ => none
      else if 0xE0 ≤ b ∧ b ≤ 0xEF then
        match rest with
        | .inr b1 :: .inr b2 :: more =>
            if (if b = 0xE0 then 0xA0 ≤ b1 ∧ b1 ≤ 0xBF
                else if b = 0xED then 0x80 ≤ b1 ∧ b1 ≤ 0x9F
                else isCont b1 = true) ∧ isCont b2 = true then
              (utf8Decode more).map (fun r =>
                Char.ofNat ((b - 0xE0) * 4096 + (b1 - 0x80) * 64 + (b2 - 0x80)) :: r)
            else none
        | _ => none
      else if 0xF0 ≤ b ∧ b ≤ 0xF4 then
        match rest with
        | .inr b1 :: .inr b2 :: .inr b3 :: more =>
            if (if b = 0xF0 then 0x90 ≤ b1 ∧ b1 ≤ 0xBF
                else if b = 0xF4 then 0x80 ≤ b1 ∧ b1 ≤ 0x8F
                else isCont b1 = true) ∧ isCont b2 = true ∧ isCont b3 = true then
              (utf8Decode more).map (fun r =>
                Char.ofNat ((b - 0xF0) * 262144 + (b1 - 0x80) * 4096 + (b2 - 0x80) * 64
                  + (b3 - 0x80)) :: r)
            else none
        | _ => none
      else none

/-- The built-in `decodeURIComponent`: the decoded text, or `none` where it throws
`URIError`. -/
def decodeURIComponent (s : List Char) : Option (List Char) :=
  (unescape s).bind utf8Decode

/-- The characters that make `parseurl` leave a URL to Node's general parser: `#` and the
white space characters it tests for. -/
def breaks : List Char :=
  ['#', ' ', '\t', '\n', '\r', Char.ofNat 0x0C, Char.ofNat 0xA0, Char.ofNat 0xFEFF]

/-- A text without `#` and without white space. -/
def isPlain (s : List Char) : Bool :=
  s.all (fun c => !breaks.contains c)

/-- The path of a request URL as `parseurl` finds it on its own: for a URL that starts
with a slash and is plain, the text before the first `?`.  Any other URL is left to
Node's `url.parse` and is not covered (`none`). -/
def pathname (url : List Char) : Option Path :=
  if url.head? = some '/' ∧ isPlain url = true then some (url.takeWhile (fun c => c != '?'))
  else none

/-- The URL made of a path and, when there is one, a query string. -/
def target (p : Path) : Option (List Char) → List Char
  | none => p
  | some q => p ++ '?' :: q

/-- What a layer makes of a path: the pattern does not match, or it matches and the
captured text decodes to the value of the parameter, or it matches and the captured text
does not decode. -/
inductive LayerMatch where
  | noMatch
  | params (value : Path)
  | failed
  deriving DecidableEq, Repr

/-- Matching a layer as Express does: the pattern is tried on the path text, and what it
captured is passed through `decodeURIComponent`; a `URIError` there fails the match with
status 400. -/
def matchLayer (pat : Pattern) (p : Path) : LayerMatch :=
  match matchPattern pat p with
  | none => .noMatch
  | some captured =>
      match decodeURIComponent captured with
      | none => .failed
      | some v => .params v

/-- What the router selects for a request: no route, the chain of a route together with
the decoded parameter, or the refusal of the request (400). -/
inductive Selection where
  | noRoute
  | chain (handlers : List Handler) (param : Path)
  | refused
  deriving DecidableEq, Repr

/-- Route selection with decoding: layers are tried in order; a layer whose match fails
ends the scan with the refusal of the request, and the first layer that matches and
handles the method gives its chain. -/
def selectRoute (m : Method) (p : Path) : List Layer → Selection
  | [] => .noRoute
  | l :: ls =>
      match matchLayer l.pattern p with
      | .noMatch => selectRoute m p ls
      | .failed => .refused
      | .params v => if handlesMethod l.verb m then .chain l.handlers v else selectRoute m p ls

/-- How the handling of a request ends. -/
inductive Verdict where
  | answered
  | unanswered
  | badRequest
  deriving DecidableEq, Repr

/-- The router handling a request, with decoding: as `scan`, except that a layer whose
match fails ends the scan with the error 400 and no further handler runs (every layer of
this router is a route, and a route is not taken once a match has failed). -/
def routeScan (callsNext : Handler → Bool) (m : Method) (p : Path) :
    List Layer → List Handler × Verdict
  | [] => ([], .unanswered)
  | l :: ls =>
      match matchLayer l.pattern p with
      | .noMatch => routeScan callsNext m p ls
      | .failed => ([], .badRequest)
      | .params _ =>
          if handlesMethod l.verb m then
            if (runChain callsNext l.handlers).2 then
              ((runChain callsNext l.handlers).1 ++ (routeScan callsNext m p ls).1,
                (routeScan callsNext m p ls).2)
            else ((runChain callsNext l.handlers).1, .answered)
          else routeScan callsNext m p ls

/-- The router handling a request, with decoding and with the automatic answer to
OPTIONS. -/
def route (callsNext : Handler → Bool) (m : Method) (p : Path) (stack : List Layer) :
    List Handler × Verdict :=
  match routeScan callsNext m p stack with
  | (ran, .unanswered) => (ran, if autoOptions m p stack then .answered else .unanswered)
  | r => r

/-- Selection seen from the application: the mounts are tried in order and the next one
only when the router selected no route. -/
def selectMounts (cs : Bool) (m : Method) (p : Path) (stack : List Layer) :
    List Path → Selection
  | [] => .noRoute
  | pre :: rest =>
      match mountMatch cs pre p with
      | none => selectMounts cs m p stack rest
      | some rel =>
          match selectRoute m rel stack with
          | .noRoute => selectMounts cs m p stack rest
          | s => s

/-- Handling seen from the application: the mounts are tried in order and the next one
only when the request left the router unanswered. -/
def routeMounts (callsNext : Handler → Bool) (cs : Bool) (m : Method) (p : Path)
    (stack : List Layer) : List Path → List Handler × Verdict
  | [] => ([], .unanswered)
  | pre :: rest =>
      match mountMatch cs pre p with
      | none => routeMounts callsNext cs m p stack rest
      | some rel =>
          match route callsNext m rel stack with
          | (ran, .unanswered) =>
              (ran ++ (routeMounts callsNext cs m p stack rest).1,
                (routeMounts callsNext cs m p stack rest).2)
          | r => r

/-- The route the application selects for a request given by method and URL. -/
def selectFor (w : World) (m : Method) (url : List Char) : Option Selection :=
  (pathname url).map (fun p => selectMounts w.caseSensitive m p w.stack w.mounts)

/-- The application receiving a request given by method and URL: the handlers that run
and how the handling ends. -/
def receive (callsNext : Handler → Bool) (w : World) (m : Method) (url : List Char) :
    Option (List Handler × Verdict) :=
  (pathname url).map (fun p => routeMounts callsNext w.caseSensitive m p w.stack w.mounts)

/-- A text that can stand as one path segment of a plain URL: a non-empty segment without
`?`, `#` and white space. -/
def isSegmentText (id : Path) : Prop :=
  isSegment id ∧ '?' ∉ id ∧ isPlain id = true

instance (id : Path) : Decidable (isSegmentText id) := by
  unfold isSegmentText; infer_instance

/-- The verdict that corresponds to the flag of `handle`. -/
def verdictOf (unanswered : Bool) : Verdict :=
  if unanswered then .unanswered else .answered

/-! ## Matching lemmas -/

theorem takeWhile_notSlash_of_segment (s : Path) (h : '/' ∉ s) :
    s.takeWhile (fun c => c != '/') = s := by
  induction s with
  | nil => rfl
  | cons a t ih =>
    have ha : a ≠ '/' := fun e => h (by simp [e])
    have ht : '/' ∉ t := fun e => h (by simp [e])
    have hb : (a != '/') = true := by simp [ha]
    rw [List.takeWhile_cons, hb]
    simp [ih ht]

theorem dropWhile_notSlash_of_segment (s : Path) (h : '/' ∉ s) :
    s.dropWhile (fun c => c != '/') = [] := by
  induction s with
  | nil => rfl
  | cons a t ih =>
    have ha : a ≠ '/' := fun e => h (by simp [e])
    have ht : '/' ∉ t := fun e => h (by simp [e])
    have hb : (a != '/') = true := by simp [ha]
    rw [List.dropWhile_cons, hb]
    simp [ih ht]

theorem matchId_itemPath (id : Path) (h : isSegment id) : matchId (itemPath id) = some id := by
  obtain ⟨hne, hs⟩ := h
  simp [matchId, itemPath, takeWhile_notSlash_of_segment id hs,
    dropWhile_notSlash_of_segment id hs, hne]

theorem matchRoot_itemPath (id : Path) (h : isSegment id) : matchRoot (itemPath id) = false := by
  obtain ⟨hne, _⟩ := h
  cases id with
  | nil => exact absurd rfl hne
  | cons a t => simp [matchRoot, itemPath]

theorem matchRoot_collectionPath : matchRoot collectionPath = true := by decide

theorem matchId_collectionPath : matchId collectionPath = none := by decide


theorem setup_fresh_stack (cs : Bool) : (setup (fresh cs)).stack = contactLayers := rfl

theorem handle_fst (cb : Handler → Bool) (m : Method) (p : Path) (stack : List Layer) :
    (handle cb m p stack).1 = (scan cb m p stack).1 := rfl

theorem runChain_append (cb : Handler → Bool) (xs ys : List Handler) :
    runChain cb (xs ++ ys) =
      if (runChain cb xs).2 then ((runChain cb xs).1 ++ (runChain cb ys).1, (runChain cb ys).2)
      else runChain cb xs := by
  induction xs with
  | nil => simp [runChain]
  | cons x xs ih =>
    by_cases hx : cb x = true
    · by_cases h2 : (runChain cb xs).2 = true <;> simp [runChain, hx, ih, h2]
    · simp [runChain, hx]

theorem scan_eq_runChain (cb : Handler → Bool) (m : Method) (p : Path) (stack : List Layer) :
    scan cb m p stack = runChain cb (chainsOf (fun l => l.accepts m p) stack) := by
  induction stack with
  | nil => rfl
  | cons l ls ih =>
    by_cases ha : l.accepts m p = true
    · by_cases h2 : (runChain cb l.handlers).2 = true
      · simp [scan, chainsOf, ha, runChain_append, h2, ih]
      · have h3 : (runChain cb l.handlers).2 = false := by simpa using h2
        simp only [scan, chainsOf, ha, runChain_append, h3, if_true]
        exact Prod.ext rfl h3.symm
    · simp [scan, chainsOf, ha, ih]

theorem accepts_collection (m : Method) :
    (fun l : Layer => l.accepts m collectionPath)
      = (fun l => l.pattern == .root && handlesMethod l.verb m) := by
  funext l
  cases h : l.pattern <;> simp [Layer.accepts, matchPattern, h, matchRoot_collectionPath, matchId_collectionPath]

theorem accepts_item (m : Method) (id : Path) (hid : isSegment id) :
    (fun l : Layer => l.accepts m (itemPath id))
      = (fun l => l.pattern == .id && handlesMethod l.verb m) := by
  funext l
  cases h : l.pattern <;>
    simp [Layer.accepts, matchPattern, h, matchRoot_itemPath id hid, matchId_itemPath id hid]

theorem dispatch_collection (m : Method) :
    dispatch contactLayers m collectionPath =
      some (collectionChain m) := by
  rw [dispatch, accepts_collection]
  cases m <;> rfl

theorem dispatch_item (m : Method) (id : Path) (hid : isSegment id) :
    dispatch contactLayers m (itemPath id) =
      some (itemChain m) := by
  rw [dispatch, accepts_item m id hid]
  cases m <;> rfl

theorem scan_collection (cb : Handler → Bool) (m : Method) :
    scan cb m collectionPath contactLayers =
      runChain cb (match m with
        | .GET => [.getContactsByFilter, .methodNotAllowed]
        | .HEAD => [.getContactsByFilter, .methodNotAllowed]
        | .POST => [.avatarUpload, .createContact, .methodNotAllowed]
        | .DELETE => [.deleteAllContacts, .methodNotAllowed]
        | _ => [.methodNotAllowed]) := by
  rw [scan_eq_runChain, accepts_collection]
  cases m <;> rfl

theorem scan_item (cb : Handler → Bool) (m : Method) (id : Path) (hid : isSegment id) :
    scan cb m (itemPath id) contactLayers =
      runChain cb (match m with
        | .GET => [.getContact, .methodNotAllowed]
        | .HEAD => [.getContact, .methodNotAllowed]
        | .PUT => [.avatarUpload, .updateContact, .methodNotAllowed]
        | .DELETE => [.deleteContact, .methodNotAllowed]
        | _ => [.methodNotAllowed]) := by
  rw [scan_eq_runChain, accepts_item m id hid]
  cases m <;> rfl

theorem runChain_sublist (cb : Handler → Bool) (xs : List Handler) :
    (runChain cb xs).1 <+: xs := by
  induction xs with
  | nil => simp [runChain]
  | cons x xs ih =>
    by_cases hx : cb x = true
    · simpa [runChain, hx] using ih
    · simp [runChain, hx]

theorem runChain_prefix_mem (cb : Handler → Bool) (xs : List Handler) (a : Handler)
    (h : a ∉ xs) : a ∉ (runChain cb xs).1 :=
  fun hm => h ((runChain_sublist cb xs).subset hm)

theorem runChain_single (cb : Handler → Bool) (a : Handler) : (runChain cb [a]).1 = [a] := by
  by_cases h : cb a = true <;> simp [runChain, h]

theorem runChain_head (cb : Handler → Bool) (a : Handler) (xs : List Handler) :
    (runChain cb (a :: xs)).1.head? = some a := by
  by_cases h : cb a = true <;> simp [runChain, h]

theorem isItemPath_iff (p : Path) : isItemPath p ↔ ∃ id, isSegment id ∧ p = itemPath id := by
  constructor
  · intro h
    unfold isItemPath at h
    split at h
    · exact ⟨_, h, rfl⟩
    · exact h.elim
  · rintro ⟨id, hid, rfl⟩
    exact hid

/-- Claim C1: on the route table registered by `setup`, with first-match dispatch, the
collection path sends GET to `getContactsByFilter`, POST to `createContact` and DELETE to
`deleteAllContacts`, and every item path `/{id}` with a non-empty segment `id` sends GET
to `getContact`, PUT to `updateContact` and DELETE to `deleteContact`; in each case the
controller is the last handler of the selected chain and `methodNotAllowed` is not in it,
and `methodNotAllowed` does not run when the controller answers the request. -/
theorem supported_pairs_dispatch (cs : Bool) (id : Path) (hid : isSegment id)
    (cb : Handler → Bool) :
    dispatchesTo (setup (fresh cs)).stack .GET collectionPath .getContactsByFilter ∧
    dispatchesTo (setup (fresh cs)).stack .POST collectionPath .createContact ∧
    dispatchesTo (setup (fresh cs)).stack .DELETE collectionPath .deleteAllContacts ∧
    dispatchesTo (setup (fresh cs)).stack .GET (itemPath id) .getContact ∧
    dispatchesTo (setup (fresh cs)).stack .PUT (itemPath id) .updateContact ∧
    dispatchesTo (setup (fresh cs)).stack .DELETE (itemPath id) .deleteContact ∧
    (cb .getContactsByFilter = false → Handler.methodNotAllowed ∉
      (handle cb .GET collectionPath (setup (fresh cs)).stack).1) ∧
    (cb .createContact = false → Handler.methodNotAllowed ∉
      (handle cb .POST collectionPath (setup (fresh cs)).stack).1) ∧
    (cb .deleteAllContacts = false → Handler.methodNotAllowed ∉
      (handle cb .DELETE collectionPath (setup (fresh cs)).stack).1) ∧
    (cb .getContact = false → Handler.methodNotAllowed ∉
      (handle cb .GET (itemPath id) (setup (fresh cs)).stack).1) ∧
    (cb .updateContact = false → Handler.methodNotAllowed ∉
      (handle cb .PUT (itemPath id) (setup (fresh cs)).stack).1) ∧
    (cb .deleteContact = false → Handler.methodNotAllowed ∉
      (handle cb .DELETE (itemPath id) (setup (fresh cs)).stack).1) := by
  simp only [setup_fresh_stack, dispatchesTo, dispatch_collection, dispatch_item _ id hid,
    handle_fst, scan_collection, scan_item _ _ id hid]
  refine ⟨⟨_, rfl, by decide, by decide⟩, ⟨_, rfl, by decide, by decide⟩,
    ⟨_, rfl, by decide, by decide⟩, ⟨_, rfl, by decide, by decide⟩,
    ⟨_, rfl, by decide, by decide⟩, ⟨_, rfl, by decide, by decide⟩, ?_, ?_, ?_, ?_, ?_, ?_⟩
  all_goals
    intro h
    by_cases hu : cb .avatarUpload = true <;> simp [runChain, h, hu]

/-- Claim C1, witness: the item path `/42`. -/
theorem supported_pairs_dispatch_witness :
    isSegment "42".toList ∧
    dispatchesTo (setup (fresh false)).stack .GET (itemPath "42".toList) .getContact ∧
    dispatchesTo (setup (fresh false)).stack .PUT (itemPath "42".toList) .updateContact ∧
    dispatchesTo (setup (fresh false)).stack .DELETE (itemPath "42".toList) .deleteContact ∧
    Handler.methodNotAllowed ∉
      (handle (fun _ => false) .GET (itemPath "42".toList) (setup (fresh false)).stack).1 :=
  ⟨by decide,
   (supported_pairs_dispatch false "42".toList (by decide) (fun _ => false)).2.2.2.1,
   (supported_pairs_dispatch false "42".toList (by decide) (fun _ => false)).2.2.2.2.1,
   (supported_pairs_dispatch false "42".toList (by decide) (fun _ => false)).2.2.2.2.2.1,
   (supported_pairs_dispatch false "42".toList (by decide)
      (fun _ => false)).2.2.2.2.2.2.2.2.2.1 rfl⟩

/-- Claim C2, counterexample: HEAD is none of GET, POST and DELETE, yet on the collection
path it selects the chain of the GET route, so `getContactsByFilter` runs and
`methodNotAllowed` does not. -/
theorem head_reaches_get_controller :
    Method.HEAD ≠ Method.GET ∧ Method.HEAD ≠ Method.POST ∧ Method.HEAD ≠ Method.DELETE ∧
    dispatch (setup (fresh false)).stack .HEAD collectionPath = some [.getContactsByFilter] ∧
    dispatch (setup (fresh false)).stack .HEAD collectionPath ≠ some [.methodNotAllowed] ∧
    handle (fun _ => false) .HEAD collectionPath (setup (fresh false)).stack
      = ([.getContactsByFilter], false) := by
  decide

/-- Claim C2, amended: every method other than GET, HEAD, POST and DELETE on the collection
path, and every method other than GET, HEAD, PUT and DELETE on an item path, selects the
chain `[methodNotAllowed]`, and `methodNotAllowed` is the only handler that runs, whatever
the handlers do; HEAD selects the chain of the GET route of the path. -/
theorem other_methods_not_allowed (cs : Bool) (m : Method) (id : Path) (hid : isSegment id)
    (cb : Handler → Bool) :
    (m ≠ .GET → m ≠ .HEAD → m ≠ .POST → m ≠ .DELETE →
      dispatch (setup (fresh cs)).stack m collectionPath = some [.methodNotAllowed] ∧
      (handle cb m collectionPath (setup (fresh cs)).stack).1 = [.methodNotAllowed]) ∧
    (m ≠ .GET → m ≠ .HEAD → m ≠ .PUT → m ≠ .DELETE →
      dispatch (setup (fresh cs)).stack m (itemPath id) = some [.methodNotAllowed] ∧
      (handle cb m (itemPath id) (setup (fresh cs)).stack).1 = [.methodNotAllowed]) ∧
    dispatch (setup (fresh cs)).stack .HEAD collectionPath = some [.getContactsByFilter] ∧
    dispatch (setup (fresh cs)).stack .HEAD (itemPath id) = some [.getContact] := by
  simp only [setup_fresh_stack, dispatch_collection, dispatch_item _ id hid,
    handle_fst, scan_collection, scan_item _ _ id hid]
  refine ⟨?_, ?_, rfl, rfl⟩
  · intro h1 h2 h3 h4
    cases m <;> first | contradiction | exact ⟨rfl, runChain_single cb _⟩
  · intro h1 h2 h3 h4
    cases m <;> first | contradiction | exact ⟨rfl, runChain_single cb _⟩

/-- Claim C2, witness: PATCH on the collection path and POST on the item path `/42`. -/
theorem other_methods_not_allowed_witness :
    isSegment "42".toList ∧
    dispatch (setup (fresh false)).stack .PATCH collectionPath = some [.methodNotAllowed] ∧
    (handle (fun _ => true) .PATCH collectionPath (setup (fresh false)).stack).1
      = [.methodNotAllowed] ∧
    dispatch (setup (fresh false)).stack .POST (itemPath "42".toList)
      = some [.methodNotAllowed] ∧
    (handle (fun _ => true) .POST (itemPath "42".toList) (setup (fresh false)).stack).1
      = [.methodNotAllowed] :=
  ⟨by decide,
   ((other_methods_not_allowed false .PATCH "42".toList (by decide) (fun _ => true)).1
      (by decide) (by decide) (by decide) (by decide)).1,
   ((other_methods_not_allowed false .PATCH "42".toList (by decide) (fun _ => true)).1
      (by decide) (by decide) (by decide) (by decide)).2,
   ((other_methods_not_allowed false .POST "42".toList (by decide) (fun _ => true)).2.1
      (by decide) (by decide) (by decide) (by decide)).1,
   ((other_methods_not_allowed false .POST "42".toList (by decide) (fun _ => true)).2.1
      (by decide) (by decide) (by decide) (by decide)).2⟩

/-- Claim C3: a POST to the collection path and a PUT to an item path select exactly the
chain `[avatarUpload, controller]`; when the request is handled `avatarUpload` runs first,
the controller runs next when `avatarUpload` passes control on, and nothing else runs when
it does not. -/
theorem upload_runs_before_controller (cs : Bool) (id : Path) (hid : isSegment id)
    (cb : Handler → Bool) :
    dispatch (setup (fresh cs)).stack .POST collectionPath
      = some [.avatarUpload, .createContact] ∧
    dispatch (setup (fresh cs)).stack .PUT (itemPath id)
      = some [.avatarUpload, .updateContact] ∧
    (handle cb .POST collectionPath (setup (fresh cs)).stack).1.head? = some .avatarUpload ∧
    (handle cb .PUT (itemPath id) (setup (fresh cs)).stack).1.head? = some .avatarUpload ∧
    (cb .avatarUpload = true →
      (handle cb .POST collectionPath (setup (fresh cs)).stack).1.take 2
        = [.avatarUpload, .createContact] ∧
      (handle cb .PUT (itemPath id) (setup (fresh cs)).stack).1.take 2
        = [.avatarUpload, .updateContact]) ∧
    (cb .avatarUpload = false →
      (handle cb .POST collectionPath (setup (fresh cs)).stack).1 = [.avatarUpload] ∧
      (handle cb .PUT (itemPath id) (setup (fresh cs)).stack).1 = [.avatarUpload]) := by
  simp only [setup_fresh_stack, dispatch_collection, dispatch_item _ id hid,
    handle_fst, scan_collection, scan_item _ _ id hid]
  refine ⟨rfl, rfl, runChain_head _ _ _, runChain_head _ _ _, ?_, ?_⟩
  · intro h
    by_cases h1 : cb .createContact = true <;> by_cases h2 : cb .updateContact = true <;>
      simp [runChain, h, h1, h2]
  · intro h
    simp [runChain, h]

/-- Claim C3, witness: PUT on the item path `/42` with an upload that does not pass control on. -/
theorem upload_runs_before_controller_witness :
    isSegment "42".toList ∧
    dispatch (setup (fresh false)).stack .PUT (itemPath "42".toList)
      = some [.avatarUpload, .updateContact] ∧
    (handle (fun _ => false) .PUT (itemPath "42".toList) (setup (fresh false)).stack).1
      = [.avatarUpload] :=
  ⟨by decide,
   (upload_runs_before_controller false "42".toList (by decide) (fun _ => false)).2.1,
   ((upload_runs_before_controller false "42".toList (by decide) (fun _ => false)).2.2.2.2.2
      rfl).2⟩

theorem stripLeading_self (cs : Bool) (pre rest : Path) :
    stripLeading cs pre (pre ++ rest) = some rest := by
  induction pre with
  | nil => cases rest <;> rfl
  | cons a t ih =>
    have : sameChar cs a a = true := by cases cs <;> simp [sameChar]
    simp [stripLeading, this, ih]

theorem mountMatch_self (cs : Bool) (pre : Path) : mountMatch cs pre pre = some collectionPath := by
  have := stripLeading_self cs pre []
  rw [List.append_nil] at this
  simp [mountMatch, this, collectionPath]

theorem mountMatch_slash (cs : Bool) (pre : Path) :
    mountMatch cs pre (pre ++ ['/']) = some collectionPath := by
  simp [mountMatch, stripLeading_self, collectionPath]

theorem mountMatch_item (cs : Bool) (pre id : Path) (hid : isSegment id) :
    mountMatch cs pre (pre ++ itemPath id) = some (itemPath id) := by
  obtain ⟨hne, hs⟩ := hid
  cases id with
  | nil => exact absurd rfl hne
  | cons a t =>
    have ha : a ≠ '/' := fun e => hs (by simp [e])
    simp [mountMatch, stripLeading_self, itemPath, ha]

theorem appDispatch_setup_fresh (cs : Bool) (req : Request) :
    appDispatch (setup (fresh cs)) req
      = (mountMatch cs mountPath req.path).bind (fun rel => dispatch contactLayers req.method rel) := by
  simp [appDispatch, setup, fresh, List.findSome?]
  cases h : (mountMatch cs mountPath req.path).bind (fun rel => dispatch contactLayers req.method rel) <;> simp [h]

theorem mem_chainsOf (acc : Layer → Bool) (stack : List Layer) (a : Handler)
    (h : a ∈ chainsOf acc stack) : ∃ l ∈ stack, acc l = true ∧ a ∈ l.handlers := by
  induction stack with
  | nil => simp [chainsOf] at h
  | cons l ls ih =>
    by_cases hl : acc l = true
    · simp only [chainsOf, hl, if_true, List.mem_append] at h
      rcases h with h | h
      · exact ⟨l, by simp, hl, h⟩
      · obtain ⟨l2, hm, h2⟩ := ih h
        exact ⟨l2, by simp [hm], h2⟩
    · simp only [chainsOf, hl] at h
      obtain ⟨l2, hm, h2⟩ := ih h
      exact ⟨l2, by simp [hm], h2⟩

theorem handlesMethod_post (m : Method) (h : handlesMethod .post m = true) : m = .POST := by
  cases m <;> first | rfl | simp [handlesMethod] at h

theorem handlesMethod_put (m : Method) (h : handlesMethod .put m = true) : m = .PUT := by
  cases m <;> first | rfl | simp [handlesMethod] at h

theorem upload_runs_only_on (cb : Handler → Bool) (m : Method) (p : Path)
    (h : Handler.avatarUpload ∈ (scan cb m p contactLayers).1) :
    (m = .POST ∧ (matchPattern .root p).isSome = true) ∨
    (m = .PUT ∧ (matchPattern .id p).isSome = true) := by
  rw [scan_eq_runChain] at h
  obtain ⟨l, hl, hacc, hmem⟩ := mem_chainsOf _ _ _ ((runChain_sublist cb _).subset h)
  simp only [contactLayers, List.mem_cons, List.mem_singleton, List.not_mem_nil,
    or_false] at hl
  simp only [Layer.accepts, Bool.and_eq_true] at hacc
  rcases hl with rfl | rfl | rfl | rfl | rfl | rfl | rfl | rfl
  · simp at hmem
  · exact Or.inl ⟨handlesMethod_post m hacc.2, hacc.1⟩
  · simp at hmem
  · simp at hmem
  · simp at hmem
  · exact Or.inr ⟨handlesMethod_put m hacc.2, hacc.1⟩
  · simp at hmem
  · simp at hmem

/-- Claim C4: a request on one of the two path shapes that is neither a POST to the
collection path nor a PUT to an item path selects a chain of exactly one handler, a
controller or `methodNotAllowed`, and `avatarUpload` is not among the handlers that run,
whatever the handlers do; on any path at all, `avatarUpload` runs only for a POST whose
path matches `/` or a PUT whose path matches `/:id`. -/
theorem upload_absent_elsewhere (cs : Bool) (m : Method) (p : Path) (cb : Handler → Bool)
    (hshape : p = collectionPath ∨ isItemPath p)
    (hpost : ¬ (m = .POST ∧ p = collectionPath))
    (hput : ¬ (m = .PUT ∧ isItemPath p)) :
    (∃ h, dispatch (setup (fresh cs)).stack m p = some [h] ∧
      (h.isController = true ∨ h = .methodNotAllowed)) ∧
    Handler.avatarUpload ∉ (handle cb m p (setup (fresh cs)).stack).1 ∧
    (∀ any : Path, Handler.avatarUpload ∈ (handle cb m any (setup (fresh cs)).stack).1 →
      (m = .POST ∧ (matchPattern .root any).isSome = true) ∨
      (m = .PUT ∧ (matchPattern .id any).isSome = true)) := by
  refine ⟨?_, ?_, fun any h => upload_runs_only_on cb m any h⟩
  · rcases hshape with rfl | hitem
    · simp only [setup_fresh_stack, dispatch_collection]
      have hm : m ≠ .POST := fun e => hpost ⟨e, rfl⟩
      cases m <;> first
        | contradiction
        | exact ⟨_, rfl, by decide⟩
    · obtain ⟨id, hid, rfl⟩ := (isItemPath_iff p).1 hitem
      simp only [setup_fresh_stack, dispatch_item _ id hid]
      have hm : m ≠ .PUT := fun e => hput ⟨e, hitem⟩
      cases m <;> first
        | contradiction
        | exact ⟨_, rfl, by decide⟩
  · rcases hshape with rfl | hitem
    · simp only [setup_fresh_stack, handle_fst, scan_collection]
      have hm : m ≠ .POST := fun e => hpost ⟨e, rfl⟩
      cases m <;> first
        | contradiction
        | exact runChain_prefix_mem cb _ _ (by decide)
    · obtain ⟨id, hid, rfl⟩ := (isItemPath_iff p).1 hitem
      simp only [setup_fresh_stack, handle_fst, scan_item _ _ id hid]
      have hm : m ≠ .PUT := fun e => hput ⟨e, hitem⟩
      cases m <;> first
        | contradiction
        | exact runChain_prefix_mem cb _ _ (by decide)

/-- Claim C4, witness: DELETE on the item path `/42`. -/
theorem upload_absent_elsewhere_witness :
    (∃ h, dispatch (setup (fresh false)).stack .DELETE (itemPath "42".toList) = some [h] ∧
      (h.isController = true ∨ h = .methodNotAllowed)) ∧
    Handler.avatarUpload ∉
      (handle (fun _ => true) .DELETE (itemPath "42".toList) (setup (fresh false)).stack).1 :=
  ⟨(upload_absent_elsewhere false .DELETE (itemPath "42".toList) (fun _ => true)
      (Or.inr (by decide)) (by decide) (by decide)).1,
   (upload_absent_elsewhere false .DELETE (itemPath "42".toList) (fun _ => true)
      (Or.inr (by decide)) (by decide) (by decide)).2.1⟩

theorem takeWhile_to_mark (p q : List Char) (h : '?' ∉ p) :
    (p ++ '?' :: q).takeWhile (fun c => c != '?') = p := by
  induction p with
  | nil => simp [List.takeWhile]
  | cons a t ih =>
    have ha : a ≠ '?' := fun e => h (by simp [e])
    have ht : '?' ∉ t := fun e => h (by simp [e])
    have hb : (a != '?') = true := by simp [ha]
    rw [List.cons_append, List.takeWhile_cons, hb]
    simp [ih ht]

theorem takeWhile_no_mark (p : List Char) (h : '?' ∉ p) :
    p.takeWhile (fun c => c != '?') = p := by
  induction p with
  | nil => rfl
  | cons a t ih =>
    have ha : a ≠ '?' := fun e => h (by simp [e])
    have ht : '?' ∉ t := fun e => h (by simp [e])
    have hb : (a != '?') = true := by simp [ha]
    rw [List.takeWhile_cons, hb]
    simp [ih ht]

theorem pathname_target (p : Path) (q : Option (List Char)) (hhead : p.head? = some '/')
    (hmark : '?' ∉ p) (hp : isPlain p = true) (hq : ∀ t, q = some t → isPlain t = true) :
    pathname (target p q) = some p := by
  cases q with
  | none => simp [pathname, target, hhead, hp, takeWhile_no_mark p hmark]
  | some t =>
    have ht := hq t rfl
    have hall : isPlain (p ++ '?' :: t) = true := by
      simp only [isPlain, List.all_append, List.all_cons, Bool.and_eq_true] at hp ht ⊢
      exact ⟨hp, by decide, ht⟩
    have hh : (p ++ '?' :: t).head? = some '/' := by
      cases p with
      | nil => simp at hhead
      | cons a r => simpa using hhead
    simp [pathname, target, hh, hall, takeWhile_to_mark p t hmark]

theorem item_url_facts (id : Path) (hid : isSegmentText id) :
    (mountPath ++ itemPath id).head? = some '/' ∧ '?' ∉ mountPath ++ itemPath id ∧
    isPlain (mountPath ++ itemPath id) = true := by
  obtain ⟨_, hm, hp⟩ := hid
  refine ⟨rfl, ?_, ?_⟩
  · intro h
    rcases List.mem_append.1 h with h | h
    · exact absurd h (by decide)
    · simp only [itemPath, List.mem_cons] at h
      rcases h with h | h
      · exact absurd h (by decide)
      · exact hm h
  · simp only [isPlain, itemPath, List.all_append, List.all_cons, Bool.and_eq_true] at hp ⊢
    exact ⟨by decide, by decide, hp⟩

theorem matchLayer_item (id value : Path) (hid : isSegment id)
    (hdec : decodeURIComponent id = some value) (pat : Pattern) :
    matchLayer pat (itemPath id) = (match pat with | .root => .noMatch | .id => .params value) := by
  cases pat <;>
    simp [matchLayer, matchPattern, matchRoot_itemPath id hid, matchId_itemPath id hid, hdec]

theorem matchLayer_item_failed (id : Path) (hid : isSegment id)
    (hdec : decodeURIComponent id = none) (pat : Pattern) :
    matchLayer pat (itemPath id) = (match pat with | .root => .noMatch | .id => .failed) := by
  cases pat <;>
    simp [matchLayer, matchPattern, matchRoot_itemPath id hid, matchId_itemPath id hid, hdec]

theorem selectRoute_item (m : Method) (id value : Path) (hid : isSegment id)
    (hdec : decodeURIComponent id = some value) :
    selectRoute m (itemPath id) contactLayers = .chain (itemChain m) value := by
  cases m <;>
    simp [selectRoute, contactLayers, matchLayer_item id value hid hdec, handlesMethod,
      itemChain]

theorem selectRoute_collection (m : Method) :
    selectRoute m collectionPath contactLayers = .chain (collectionChain m) [] := by
  cases m <;> rfl

theorem selectRoute_item_failed (m : Method) (id : Path) (hid : isSegment id)
    (hdec : decodeURIComponent id = none) :
    selectRoute m (itemPath id) contactLayers = .refused := by
  simp [selectRoute, contactLayers, matchLayer_item_failed id hid hdec]

theorem routeScan_item_failed (cb : Handler → Bool) (m : Method) (id : Path)
    (hid : isSegment id) (hdec : decodeURIComponent id = none) :
    routeScan cb m (itemPath id) contactLayers = ([], .badRequest) := by
  simp [routeScan, contactLayers, matchLayer_item_failed id hid hdec]

theorem matchPattern_of_noMatch (pat : Pattern) (p : Path)
    (h : matchLayer pat p = .noMatch) : matchPattern pat p = none := by
  unfold matchLayer at h
  cases hp : matchPattern pat p with
  | none => rfl
  | some captured =>
    rw [hp] at h
    cases hd : decodeURIComponent captured <;> simp [hd] at h

theorem matchPattern_of_params (pat : Pattern) (p v : Path)
    (h : matchLayer pat p = .params v) : (matchPattern pat p).isSome = true := by
  unfold matchLayer at h
  cases hp : matchPattern pat p with
  | none => simp [hp] at h
  | some captured => rfl

theorem routeScan_eq_scan (cb : Handler → Bool) (m : Method) (p : Path) (stack : List Layer)
    (h : ∀ l ∈ stack, matchLayer l.pattern p ≠ .failed) :
    routeScan cb m p stack = ((scan cb m p stack).1, verdictOf (scan cb m p stack).2) := by
  induction stack with
  | nil => rfl
  | cons l ls ih =>
    have ihl := ih (fun x hx => h x (by simp [hx]))
    have hl := h l (by simp)
    cases hml : matchLayer l.pattern p with
    | noMatch =>
      simp only [routeScan, scan, Layer.accepts, hml, matchPattern_of_noMatch _ _ hml]
      simpa using ihl
    | failed => exact absurd hml hl
    | params v =>
      simp only [routeScan, scan, Layer.accepts, hml, matchPattern_of_params _ _ v hml,
        Bool.true_and]
      by_cases hm : handlesMethod l.verb m = true
      · by_cases hr : (runChain cb l.handlers).2 = true
        · simp [hm, hr, ihl]
        · simp [hm, hr, verdictOf]
      · simpa [hm] using ihl

theorem route_eq_handle (cb : Handler → Bool) (m : Method) (p : Path) (stack : List Layer)
    (h : ∀ l ∈ stack, matchLayer l.pattern p ≠ .failed) :
    route cb m p stack = ((handle cb m p stack).1, verdictOf (handle cb m p stack).2) := by
  simp only [route, routeScan_eq_scan cb m p stack h, handle]
  cases hs : (scan cb m p stack).2 <;> cases ha : autoOptions m p stack <;>
    simp [verdictOf, hs, ha]

theorem selectMounts_single (cs : Bool) (m : Method) (p rel pre : Path) (stack : List Layer)
    (h : mountMatch cs pre p = some rel) :
    selectMounts cs m p stack [pre] = selectRoute m rel stack := by
  simp only [selectMounts, h]
  cases selectRoute m rel stack <;> rfl

theorem routeMounts_single (cb : Handler → Bool) (cs : Bool) (m : Method) (p rel pre : Path)
    (stack : List Layer) (h : mountMatch cs pre p = some rel) :
    routeMounts cb cs m p stack [pre] = route cb m rel stack := by
  simp only [routeMounts, h]
  rcases hr : route cb m rel stack with ⟨ran, v⟩
  cases v <;> simp

theorem route_of_failed (cb : Handler → Bool) (m : Method) (p : Path) (stack : List Layer)
    (h : routeScan cb m p stack = ([], .badRequest)) : route cb m p stack = ([], .badRequest) := by
  simp [route, h]

theorem item_layers_decode (id value : Path) (hid : isSegment id)
    (hdec : decodeURIComponent id = some value) :
    ∀ l ∈ contactLayers, matchLayer l.pattern (itemPath id) ≠ .failed := by
  intro l _
  rw [matchLayer_item id value hid hdec]
  cases l.pattern <;> simp

/-- Claim C5, counterexample: the id `%` is a non-empty single segment, yet for
`GET /api/v1/contacts/%` the router itself refuses the request with 400 and no handler
runs. -/
theorem malformed_escape_is_refused :
    isSegment "%".toList ∧
    selectFor (setup (fresh false)) .GET "/api/v1/contacts/%".toList = some .refused ∧
    receive (fun _ => true) (setup (fresh false)) .GET "/api/v1/contacts/%".toList
      = some ([], .badRequest) := by
  decide

/-- Claim C5, amended: for every non-empty segment `id` whose escapes decode (of any other
content, an escaped slash included) and every query string, the route selected for a
request to `/api/v1/contacts/{id}` or `/api/v1/contacts` is given by the method alone on
each of the two path shapes: no such id and no query string makes the router refuse the
request or select another chain, GET, PUT and DELETE on an item path select `getContact`,
`updateContact` and `deleteContact` with the decoded id as parameter, and the handlers run
as the route table says.  An id whose escapes do not decode is refused by the router with
400 before any handler, for every method. -/
theorem decodable_ids_reach_controllers (cs : Bool) (m : Method) (id value : Path)
    (q : Option (List Char)) (cb : Handler → Bool)
    (hid : isSegmentText id) (hq : ∀ t, q = some t → isPlain t = true)
    (hdec : decodeURIComponent id = some value) :
    selectFor (setup (fresh cs)) m (target (mountPath ++ itemPath id) q)
      = some (.chain (itemChain m) value) ∧
    selectFor (setup (fresh cs)) m (target mountPath q)
      = some (.chain (collectionChain m) []) ∧
    selectFor (setup (fresh cs)) .GET (target (mountPath ++ itemPath id) q)
      = some (.chain [.getContact] value) ∧
    selectFor (setup (fresh cs)) .PUT (target (mountPath ++ itemPath id) q)
      = some (.chain [.avatarUpload, .updateContact] value) ∧
    selectFor (setup (fresh cs)) .DELETE (target (mountPath ++ itemPath id) q)
      = some (.chain [.deleteContact] value) ∧
    receive cb (setup (fresh cs)) m (target (mountPath ++ itemPath id) q)
      = some ((handle cb m (itemPath id) contactLayers).1,
          verdictOf (handle cb m (itemPath id) contactLayers).2) ∧
    (handle cb .GET (itemPath id) contactLayers).1.head? = some .getContact ∧
    (handle cb .DELETE (itemPath id) contactLayers).1.head? = some .deleteContact ∧
    (∀ (bad : Path) (m2 : Method), isSegmentText bad → decodeURIComponent bad = none →
      selectFor (setup (fresh cs)) m2 (target (mountPath ++ itemPath bad) q)
        = some .refused ∧
      receive cb (setup (fresh cs)) m2 (target (mountPath ++ itemPath bad) q)
        = some ([], .badRequest)) := by
  have hseg : isSegment id := hid.1
  obtain ⟨h1, h2, h3⟩ := item_url_facts id hid
  have hpath := pathname_target (mountPath ++ itemPath id) q h1 h2 h3 hq
  have hroot := pathname_target mountPath q rfl (by decide) (by decide) hq
  have hsel : ∀ mm : Method,
      selectFor (setup (fresh cs)) mm (target (mountPath ++ itemPath id) q)
        = some (.chain (itemChain mm) value) := by
    intro mm
    simp only [selectFor, hpath, Option.map_some', setup, fresh, List.nil_append]
    rw [selectMounts_single cs mm _ _ _ _ (mountMatch_item cs mountPath id hseg),
      selectRoute_item mm id value hseg hdec]
  refine ⟨hsel m, ?_, hsel .GET, hsel .PUT, hsel .DELETE, ?_, ?_, ?_, ?_⟩
  · simp only [selectFor, hroot, Option.map_some', setup, fresh, List.nil_append]
    rw [selectMounts_single cs m _ _ _ _ (mountMatch_self cs mountPath),
      selectRoute_collection]
  · simp only [receive, hpath, Option.map_some', setup, fresh, List.nil_append]
    rw [routeMounts_single cb cs m _ _ _ _ (mountMatch_item cs mountPath id hseg),
      route_eq_handle cb m _ _ (item_layers_decode id value hseg hdec)]
  · rw [handle_fst, scan_item _ _ id hseg]
    exact runChain_head _ _ _
  · rw [handle_fst, scan_item _ _ id hseg]
    exact runChain_head _ _ _
  · intro bad m2 hbad hnone
    obtain ⟨b1, b2, b3⟩ := item_url_facts bad hbad
    have hbp := pathname_target (mountPath ++ itemPath bad) q b1 b2 b3 hq
    constructor
    · simp only [selectFor, hbp, Option.map_some', setup, fresh, List.nil_append]
      rw [selectMounts_single cs m2 _ _ _ _ (mountMatch_item cs mountPath bad hbad.1),
        selectRoute_item_failed m2 bad hbad.1 hnone]
    · simp only [receive, hbp, Option.map_some', setup, fresh, List.nil_append]
      rw [routeMounts_single cb cs m2 _ _ _ _ (mountMatch_item cs mountPath bad hbad.1),
        route_of_failed cb m2 _ _ (routeScan_item_failed cb m2 bad hbad.1 hnone)]

/-- Claim C5, witness: the id `a%2Fb`, whose value is `a/b`, with the query string
`page=2`, and the malformed id `%`. -/
theorem decodable_ids_reach_controllers_witness :
    isSegmentText "a%2Fb".toList ∧ isPlain "page=2".toList = true ∧
    decodeURIComponent "a%2Fb".toList = some "a/b".toList ∧
    selectFor (setup (fresh false)) .GET
        (target (mountPath ++ itemPath "a%2Fb".toList) (some "page=2".toList))
      = some (.chain [.getContact] "a/b".toList) ∧
    selectFor (setup (fresh false)) .GET
        (target (mountPath ++ itemPath "%".toList) (some "page=2".toList))
      = some .refused :=
  ⟨by decide, by decide, by decide,
   (decodable_ids_reach_controllers false .GET "a%2Fb".toList "a/b".toList
      (some "page=2".toList) (fun _ => false) (by decide)
      (fun t ht => by cases ht; decide) (by decide)).2.2.1,
   ((decodable_ids_reach_controllers false .GET "a%2Fb".toList "a/b".toList
      (some "page=2".toList) (fun _ => false) (by decide)
      (fun t ht => by cases ht; decide) (by decide)).2.2.2.2.2.2.2.2
      "%".toList .GET (by decide) (by decide)).1⟩

theorem takeWhile_notSlash_no_slash (rest : Path) :
    '/' ∉ rest.takeWhile (fun c => c != '/') := by
  intro h
  have := List.mem_takeWhile_imp h
  simp at this

theorem matchId_some (p seg : Path) (h : matchId p = some seg) :
    isSegment seg ∧ (p = itemPath seg ∨ p = itemPath seg ++ ['/']) := by
  unfold matchId at h
  split at h
  · rename_i rest
    have hsplit := List.takeWhile_append_dropWhile (fun c => c != '/') rest
    simp only [Bool.and_eq_true, Bool.or_eq_true, bne_iff_ne, ne_eq, beq_iff_eq,
      ite_eq_left_iff] at h
    split at h
    · rename_i hc
      simp only [Option.some.injEq] at h
      subst h
      refine ⟨⟨?_, takeWhile_notSlash_no_slash rest⟩, ?_⟩
      · simpa using hc.1
      · rcases hc.2 with ht | ht
        · left
          rw [ht, List.append_nil] at hsplit
          simp [itemPath, hsplit]
        · right
          rw [ht] at hsplit
          simp [itemPath, hsplit]
    · exact absurd h (by simp)
  · exact absurd h (by simp)

theorem isItemPathSlash_of (seg : Path) (h : isSegment seg) :
    isItemPathSlash (itemPath seg ++ ['/']) := by
  unfold isItemPathSlash
  refine ⟨by simp, ?_⟩
  rw [List.dropLast_concat]
  exact h

theorem matchRoot_true (p : Path) (h : matchRoot p = true) : p = [] ∨ p = collectionPath := by
  simpa [matchRoot, collectionPath] using h

theorem matchPattern_none_of_unknown (pat : Pattern) (p : Path) (h0 : p ≠ [])
    (h1 : p ≠ collectionPath) (h2 : ¬ isItemPath p) (h3 : ¬ isItemPathSlash p) :
    matchPattern pat p = none := by
  have hroot : matchRoot p = false := by
    cases h : matchRoot p
    · rfl
    · rcases matchRoot_true p h with e | e
      · exact absurd e h0
      · exact absurd e h1
  have hid : matchId p = none := by
    cases h : matchId p with
    | none => rfl
    | some seg =>
      obtain ⟨hseg, e | e⟩ := matchId_some p seg h
      · exact absurd ((isItemPath_iff p).2 ⟨seg, hseg, e⟩) h2
      · exact absurd (e ▸ isItemPathSlash_of seg hseg) h3
  cases pat <;> simp [matchPattern, hroot, hid]

theorem accepts_false_of_unknown (l : Layer) (m : Method) (p : Path) (h0 : p ≠ [])
    (h1 : p ≠ collectionPath) (h2 : ¬ isItemPath p) (h3 : ¬ isItemPathSlash p) :
    l.accepts m p = false := by
  simp [Layer.accepts, matchPattern_none_of_unknown l.pattern p h0 h1 h2 h3]

theorem autoOptions_false_of_unmatched (m : Method) (p : Path) (stack : List Layer)
    (h : ∀ pat, matchPattern pat p = none) : autoOptions m p stack = false := by
  cases m <;> simp [autoOptions, h]

theorem handle_nil_of_unmatched (cb : Handler → Bool) (stack : List Layer) (m : Method)
    (p : Path) (h : ∀ pat, matchPattern pat p = none) : handle cb m p stack = ([], true) := by
  have hs : scan cb m p stack = ([], true) := by
    induction stack with
    | nil => rfl
    | cons l ls ih => simp [scan, Layer.accepts, h, ih]
  simp [handle, hs, autoOptions_false_of_unmatched m p stack h]

theorem mountMatch_ne_nil (cs : Bool) (pre p rel : Path)
    (h : mountMatch cs pre p = some rel) : rel ≠ [] := by
  unfold mountMatch at h
  split at h
  · simp at h
  · simp only [Option.some.injEq] at h
    rw [← h]
    simp
  · rename_i c r _
    by_cases hc : c = '/'
    · by_cases hr : r.head? = some '/'
      · simp only [hc, beq_self_eq_true, hr, if_true, Option.some.injEq] at h
        rw [← h]
        intro e
        rw [e] at hr
        simp at hr
      · simp only [hc, beq_self_eq_true, if_true] at h
        have : rel = '/' :: r := by simpa [hr] using h.symm
        rw [this]
        simp
    · simp [hc] at h

theorem dispatch_none_of_rejected (stack : List Layer) (m : Method) (p : Path)
    (h : ∀ l : Layer, l.accepts m p = false) : dispatch stack m p = none := by
  simp [dispatch, h]

/-- Claim C7, counterexample: the router-relative path `/1/` is not the collection path
and is not a slash followed by one non-empty segment, yet the route `GET /:id` matches it
and `getContact` is selected. -/
theorem final_slash_still_matches :
    "/1/".toList ≠ collectionPath ∧ ¬ isItemPath "/1/".toList ∧
    dispatch (setup (fresh false)).stack .GET "/1/".toList = some [.getContact] ∧
    handle (fun _ => false) .GET "/1/".toList (setup (fresh false)).stack
      = ([.getContact], false) := by
  decide

/-- Claim C7, amended: for every router-relative path (these are never empty) that is not
`/`, not `/{id}` and not `/{id}/` for a non-empty segment `id`, no route matches for any
method: no chain is selected, no handler runs and the request leaves the router
unanswered. -/
theorem unknown_paths_fall_through (cs : Bool) (m : Method) (p : Path) (cb : Handler → Bool)
    (h0 : p ≠ []) (h1 : p ≠ collectionPath) (h2 : ¬ isItemPath p)
    (h3 : ¬ isItemPathSlash p) :
    dispatch (setup (fresh cs)).stack m p = none ∧
    handle cb m p (setup (fresh cs)).stack = ([], true) ∧
    (∀ full rel, mountMatch cs mountPath full = some rel → rel ≠ []) :=
  ⟨dispatch_none_of_rejected _ m p (fun l => accepts_false_of_unknown l m p h0 h1 h2 h3),
   handle_nil_of_unmatched cb _ m p
     (fun pat => matchPattern_none_of_unknown pat p h0 h1 h2 h3),
   fun full rel h => mountMatch_ne_nil cs mountPath full rel h⟩

/-- Claim C7, witness: the router-relative path `/1/2`. -/
theorem unknown_paths_fall_through_witness :
    dispatch (setup (fresh false)).stack .GET "/1/2".toList = none ∧
    handle (fun _ => true) .GET "/1/2".toList (setup (fresh false)).stack = ([], true) :=
  ⟨(unknown_paths_fall_through false .GET "/1/2".toList (fun _ => true)
      (by decide) (by decide) (by decide) (by decide)).1,
   (unknown_paths_fall_through false .GET "/1/2".toList (fun _ => true)
      (by decide) (by decide) (by decide) (by decide)).2.1⟩

/-- Claim C9: no path matches both the pattern `/` and the pattern `/:id`; for every
non-empty segment `id`, DELETE on `/{id}` selects `deleteContact` and never runs
`deleteAllContacts`, and DELETE on `/` selects `deleteAllContacts` and never runs
`deleteContact`. -/
theorem patterns_disjoint (cs : Bool) (p id : Path) (hid : isSegment id)
    (cb : Handler → Bool) :
    ¬ ((matchPattern .root p).isSome = true ∧ (matchPattern .id p).isSome = true) ∧
    dispatch (setup (fresh cs)).stack .DELETE (itemPath id) = some [.deleteContact] ∧
    Handler.deleteAllContacts ∉ (handle cb .DELETE (itemPath id) (setup (fresh cs)).stack).1 ∧
    dispatch (setup (fresh cs)).stack .DELETE collectionPath = some [.deleteAllContacts] ∧
    Handler.deleteContact ∉ (handle cb .DELETE collectionPath (setup (fresh cs)).stack).1 := by
  simp only [setup_fresh_stack, dispatch_collection, dispatch_item _ id hid,
    handle_fst, scan_collection, scan_item _ _ id hid]
  refine ⟨?_, rfl, runChain_prefix_mem cb _ _ (by decide), rfl,
    runChain_prefix_mem cb _ _ (by decide)⟩
  rintro ⟨hr, hi⟩
  have hroot : matchRoot p = true := by
    cases h : matchRoot p
    · simp [matchPattern, h] at hr
    · rfl
  cases h : matchId p with
  | none => simp [matchPattern, h] at hi
  | some seg =>
    obtain ⟨hseg, e | e⟩ := matchId_some p seg h
    · rw [e, matchRoot_itemPath seg hseg] at hroot
      exact absurd hroot (by simp)
    · rcases matchRoot_true p hroot with e0 | e0
      · rw [e0] at e
        simp [itemPath] at e
      · rw [e0] at e
        simp [itemPath, collectionPath] at e

/-- Claim C9, witness: DELETE on the item path `/42`. -/
theorem patterns_disjoint_witness :
    isSegment "42".toList ∧
    dispatch (setup (fresh false)).stack .DELETE (itemPath "42".toList)
      = some [.deleteContact] ∧
    Handler.deleteAllContacts ∉
      (handle (fun _ => true) .DELETE (itemPath "42".toList) (setup (fresh false)).stack).1 :=
  ⟨by decide,
   (patterns_disjoint false "/".toList "42".toList (by decide) (fun _ => true)).2.1,
   (patterns_disjoint false "/".toList "42".toList (by decide) (fun _ => true)).2.2.1⟩

theorem visit_route (l : Layer) (p : Path) : (l.visit p).route = l.route := rfl

theorem record_route (cb : Handler → Bool) (m : Method) (p : Path) (stack : List Layer) :
    (record cb m p stack).map Layer.route = stack.map Layer.route := by
  induction stack with
  | nil => rfl
  | cons l ls ih =>
    unfold record
    split
    · split <;> simp [visit_route, ih]
    · simp [visit_route, ih]

theorem accepts_of_route (l l2 : Layer) (m : Method) (p : Path) (h : l.route = l2.route) :
    l.accepts m p = l2.accepts m p := by
  simp only [Layer.route, Prod.mk.injEq] at h
  simp [Layer.accepts, h.1, h.2.1]

theorem handlers_of_route (l l2 : Layer) (h : l.route = l2.route) :
    l.handlers = l2.handlers := by
  simp only [Layer.route, Prod.mk.injEq] at h
  exact h.2.2

theorem dispatch_congr (m : Method) (p : Path) (s s2 : List Layer)
    (h : s.map Layer.route = s2.map Layer.route) : dispatch s m p = dispatch s2 m p := by
  induction s generalizing s2 with
  | nil =>
    cases s2 with
    | nil => rfl
    | cons _ _ => simp at h
  | cons l ls ih =>
    cases s2 with
    | nil => simp at h
    | cons l2 ls2 =>
      simp only [List.map_cons, List.cons.injEq] at h
      have ha := accepts_of_route l l2 m p h.1
      have hh := handlers_of_route l l2 h.1
      have := ih ls2 h.2
      simp only [dispatch] at this ⊢
      by_cases hc : l2.accepts m p = true
      · simp [List.find?, ha, hc, hh]
      · simp only [Bool.not_eq_true] at hc
        simp [List.find?, ha, hc, this]

theorem scan_congr (cb : Handler → Bool) (m : Method) (p : Path) (s s2 : List Layer)
    (h : s.map Layer.route = s2.map Layer.route) : scan cb m p s = scan cb m p s2 := by
  induction s generalizing s2 with
  | nil =>
    cases s2 with
    | nil => rfl
    | cons _ _ => simp at h
  | cons l ls ih =>
    cases s2 with
    | nil => simp at h
    | cons l2 ls2 =>
      simp only [List.map_cons, List.cons.injEq] at h
      simp only [scan, accepts_of_route l l2 m p h.1, handlers_of_route l l2 h.1, ih ls2 h.2]

theorem autoOptions_congr (m : Method) (p : Path) (s s2 : List Layer)
    (h : s.map Layer.route = s2.map Layer.route) : autoOptions m p s = autoOptions m p s2 := by
  have key : ∀ (f : Pattern × Verb × List Handler → Bool) (t : List Layer),
      t.any (fun l => f l.route) = (t.map Layer.route).any f := by
    intro f t
    induction t with
    | nil => rfl
    | cons x xs ih => simp [List.any_cons, ih]
  cases m <;> first
    | rfl
    | exact (key (fun r => (matchPattern r.1 p).isSome && !handlesMethod r.2.1 .OPTIONS) s).trans
        (h ▸ (key (fun r => (matchPattern r.1 p).isSome && !handlesMethod r.2.1 .OPTIONS)
          s2).symm)

theorem handle_congr (cb : Handler → Bool) (m : Method) (p : Path) (s s2 : List Layer)
    (h : s.map Layer.route = s2.map Layer.route) : handle cb m p s = handle cb m p s2 := by
  simp only [handle, scan_congr cb m p s s2 h, autoOptions_congr m p s s2 h]

theorem serveMounts_route (cb : Handler → Bool) (cs : Bool) (req : Request)
    (mounts : List Path) (stack : List Layer) :
    (serveMounts cb cs req mounts stack).1.map Layer.route = stack.map Layer.route := by
  induction mounts generalizing stack with
  | nil => rfl
  | cons pre rest ih =>
    unfold serveMounts
    split
    · exact ih stack
    · split
      · simp only [ih, record_route]
      · simp only [record_route]

theorem serveMounts_congr (cb : Handler → Bool) (cs : Bool) (req : Request)
    (mounts : List Path) (s s2 : List Layer) (h : s.map Layer.route = s2.map Layer.route) :
    (serveMounts cb cs req mounts s).2 = (serveMounts cb cs req mounts s2).2 := by
  induction mounts generalizing s s2 with
  | nil => rfl
  | cons pre rest ih =>
    unfold serveMounts
    split
    · exact ih s s2 h
    · rename_i rel _
      have hr : (record cb req.method rel s).map Layer.route
          = (record cb req.method rel s2).map Layer.route := by
        rw [record_route, record_route, h]
      rw [handle_congr cb req.method rel s s2 h]
      split
      · simp only [ih _ _ hr]
      · rfl

theorem serve_keeps (cb : Handler → Bool) (w : World) (req : Request) :
    (serve cb w req).1.caseSensitive = w.caseSensitive ∧
    (serve cb w req).1.mounts = w.mounts ∧
    (serve cb w req).1.stack.map Layer.route = w.stack.map Layer.route :=
  ⟨rfl, rfl, serveMounts_route cb w.caseSensitive req w.mounts w.stack⟩

theorem serveAll_keeps (w : World) (history : List ((Handler → Bool) × Request)) :
    (serveAll w history).caseSensitive = w.caseSensitive ∧
    (serveAll w history).mounts = w.mounts ∧
    (serveAll w history).stack.map Layer.route = w.stack.map Layer.route := by
  induction history generalizing w with
  | nil => exact ⟨rfl, rfl, rfl⟩
  | cons x xs ih =>
    have h1 := ih (serve x.1 w x.2).1
    have h2 := serve_keeps x.1 w x.2
    simp only [serveAll, List.foldl_cons] at h1 ⊢
    exact ⟨h1.1.trans h2.1, h1.2.1.trans h2.2.1, h1.2.2.trans h2.2.2⟩

theorem appDispatch_congr (w w2 : World) (req : Request)
    (hc : w.caseSensitive = w2.caseSensitive) (hm : w.mounts = w2.mounts)
    (hs : w.stack.map Layer.route = w2.stack.map Layer.route) :
    appDispatch w req = appDispatch w2 req := by
  unfold appDispatch
  rw [hc, hm]
  congr 1
  funext pre
  cases mountMatch w2.caseSensitive pre req.path with
  | none => rfl
  | some rel => exact dispatch_congr req.method rel _ _ hs

theorem serve_congr (cb : Handler → Bool) (w w2 : World) (req : Request)
    (hc : w.caseSensitive = w2.caseSensitive) (hm : w.mounts = w2.mounts)
    (hs : w.stack.map Layer.route = w2.stack.map Layer.route) :
    (serve cb w req).2 = (serve cb w2 req).2 := by
  unfold serve
  simp only
  rw [hc, hm]
  exact serveMounts_congr cb _ req _ _ _ hs

/-- Claim C6: handling requests adds, removes and reorders no route: after every sequence
of earlier requests, whatever the handlers did, the table holds the same routes in the
same order under the same mounts as right after `setup`, and every request selects the
same chain and runs the same handlers as on the freshly set-up router. -/
theorem dispatch_is_stateless (cs : Bool) (history : List ((Handler → Bool) × Request))
    (req : Request) (cb : Handler → Bool) :
    (serveAll (setup (fresh cs)) history).stack.map Layer.route
      = contactLayers.map Layer.route ∧
    (serveAll (setup (fresh cs)) history).mounts = [mountPath] ∧
    appDispatch (serveAll (setup (fresh cs)) history) req
      = appDispatch (setup (fresh cs)) req ∧
    (∀ rel, dispatch (serveAll (setup (fresh cs)) history).stack req.method rel
      = dispatch (setup (fresh cs)).stack req.method rel) ∧
    (serve cb (serveAll (setup (fresh cs)) history) req).2
      = (serve cb (setup (fresh cs)) req).2 := by
  obtain ⟨h1, h2, h3⟩ := serveAll_keeps (setup (fresh cs)) history
  exact ⟨h3, h2, appDispatch_congr _ _ req h1 h2 h3,
    fun rel => dispatch_congr req.method rel _ _ h3, serve_congr cb _ _ req h1 h2 h3⟩

theorem stripLeading_some (cs : Bool) (pre p rest : Path) :
    stripLeading cs pre p = some rest ↔
      ∃ q, p = q ++ rest ∧ List.Forall₂ (fun a b => sameChar cs a b = true) pre q := by
  induction pre generalizing p with
  | nil =>
    constructor
    · intro h
      have : p = rest := by cases p <;> simpa [stripLeading] using h
      exact ⟨[], by simp [this], List.Forall₂.nil⟩
    · rintro ⟨q, rfl, hq⟩
      cases hq
      cases rest <;> simp [stripLeading]
  | cons a t ih =>
    cases p with
    | nil =>
      constructor
      · intro h
        simp [stripLeading] at h
      · rintro ⟨q, hq, hf⟩
        cases hf
        simp at hq
    | cons b p2 =>
      by_cases hab : sameChar cs a b = true
      · simp only [stripLeading, hab, if_true]
        rw [ih p2]
        constructor
        · rintro ⟨q, rfl, hq⟩
          exact ⟨b :: q, rfl, List.Forall₂.cons hab hq⟩
        · rintro ⟨q, hq, hf⟩
          cases hf with
          | cons hb hrest =>
            rename_i b2 q2
            simp only [List.cons_append, List.cons.injEq] at hq
            exact ⟨q2, hq.2, hrest⟩
      · simp only [stripLeading, hab]
        constructor
        · intro h
          simp at h
        · rintro ⟨q, hq, hf⟩
          cases hf with
          | cons hb hrest =>
            simp only [List.cons_append, List.cons.injEq] at hq
            rw [← hq.1] at hb
            exact absurd hb hab

theorem mountMatch_isSome (cs : Bool) (pre p : Path) :
    (mountMatch cs pre p).isSome = true ↔
      ∃ q rest, p = q ++ rest ∧ List.Forall₂ (fun a b => sameChar cs a b = true) pre q ∧
        (rest = [] ∨ ∃ r, rest = '/' :: r) := by
  constructor
  · intro h
    unfold mountMatch at h
    split at h
    · simp at h
    · rename_i hs
      obtain ⟨q, hq, hf⟩ := (stripLeading_some cs pre p []).1 hs
      exact ⟨q, [], hq, hf, Or.inl rfl⟩
    · rename_i c r hs
      obtain ⟨q, hq, hf⟩ := (stripLeading_some cs pre p (c :: r)).1 hs
      by_cases hc : c = '/'
      · exact ⟨q, c :: r, hq, hf, Or.inr ⟨r, by rw [hc]⟩⟩
      · simp [hc] at h
  · rintro ⟨q, rest, hq, hf, hrest⟩
    have hs := (stripLeading_some cs pre p rest).2 ⟨q, hq, hf⟩
    rcases hrest with rfl | ⟨r, rfl⟩
    · simp [mountMatch, hs]
    · by_cases hr : r.head? = some '/' <;> simp [mountMatch, hs, hr]

theorem forall2_sameChar_true (a b : Path) :
    List.Forall₂ (fun x y => sameChar true x y = true) a b ↔ a = b := by
  have : (fun x y => sameChar true x y = true) = (fun x y : Char => x = y) := by
    funext x y
    simp [sameChar]
  rw [this]
  exact List.forall₂_eq_eq_eq ▸ Iff.rfl

theorem offered_setup_fresh (cs : Bool) (p : Path) :
    offered (setup (fresh cs)) p = (mountMatch cs mountPath p).isSome := by
  simp [offered, setup, fresh]

theorem underMountFold_true (p : Path) : underMountFold true p ↔ underMount p := by
  unfold underMountFold underMount
  constructor
  · rintro ⟨q, rest, rfl, hf, hrest⟩
    have hq : mountPath = q := (forall2_sameChar_true _ _).1 hf
    subst hq
    rcases hrest with rfl | ⟨r, rfl⟩
    · left; simp
    · right; exact ⟨r, by simp⟩
  · rintro (rfl | ⟨r, rfl⟩)
    · exact ⟨mountPath, [], by simp, (forall2_sameChar_true _ _).2 rfl, Or.inl rfl⟩
    · exact ⟨mountPath, '/' :: r, by simp, (forall2_sameChar_true _ _).2 rfl, Or.inr ⟨r, rfl⟩⟩

theorem serve_unmatched (cb : Handler → Bool) (cs : Bool) (req : Request)
    (h : mountMatch cs mountPath req.path = none) :
    (serve cb (setup (fresh cs)) req).2 = ([], true) := by
  simp [serve, setup, fresh, serveMounts, h]

/-- Claim C8, counterexample: with the application's default case-insensitive routing the
path `/API/V1/CONTACTS` does not lie under `/api/v1/contacts`, yet it is offered to the
router, as the collection path, and a GET on it runs `getContactsByFilter`. -/
theorem mount_ignores_letter_case :
    ¬ underMount "/API/V1/CONTACTS".toList ∧
    offered (setup (fresh false)) "/API/V1/CONTACTS".toList = true ∧
    mountMatch false mountPath "/API/V1/CONTACTS".toList = some collectionPath ∧
    (serve (fun _ => false) (setup (fresh false))
        { method := .GET, path := "/API/V1/CONTACTS".toList }).2
      = ([.getContactsByFilter], false) := by
  decide

/-- Claim C8, amended: a request is offered to the router's route table if and only if its
path lies under `/api/v1/contacts` with characters compared as the application compares
them (exactly when it routes case sensitively, otherwise up to letter case); the mount path
itself becomes the collection path `/` and `/api/v1/contacts/{id}` becomes `/{id}`; for a
path not offered, for example `/contacts`, no chain is selected and no handler runs. -/
theorem reachable_under_mount (cs : Bool) (p id : Path) (hid : isSegment id) (m : Method)
    (q : Option Path) (cb : Handler → Bool) :
    (offered (setup (fresh cs)) p = true ↔ underMountFold cs p) ∧
    (underMountFold true p ↔ underMount p) ∧
    mountMatch cs mountPath mountPath = some collectionPath ∧
    mountMatch cs mountPath (mountPath ++ itemPath id) = some (itemPath id) ∧
    (¬ underMountFold cs p →
      appDispatch (setup (fresh cs)) { method := m, path := p, query := q } = none ∧
      (serve cb (setup (fresh cs)) { method := m, path := p, query := q }).2 = ([], true)) := by
  refine ⟨?_, underMountFold_true p, mountMatch_self cs _, mountMatch_item cs _ id hid, ?_⟩
  · rw [offered_setup_fresh]
    exact mountMatch_isSome cs mountPath p
  · intro h
    have hn : mountMatch cs mountPath p = none := by
      cases hm : mountMatch cs mountPath p with
      | none => rfl
      | some rel =>
        exact absurd ((mountMatch_isSome cs mountPath p).1 (by simp [hm])) h
    exact ⟨by simp [appDispatch_setup_fresh, hn], serve_unmatched cb cs _ hn⟩

/-- Claim C8, witness: the item path `/42` under the mount and the path `/contacts` outside it. -/
theorem reachable_under_mount_witness :
    isSegment "42".toList ∧ ¬ underMountFold true "/contacts".toList ∧
    mountMatch true mountPath (mountPath ++ itemPath "42".toList)
      = some (itemPath "42".toList) ∧
    appDispatch (setup (fresh true)) { method := .GET, path := "/contacts".toList } = none ∧
    (serve (fun _ => true) (setup (fresh true))
        { method := .GET, path := "/contacts".toList }).2 = ([], true) :=
  have hnot : ¬ underMountFold true "/contacts".toList := fun h =>
    absurd ((reachable_under_mount true "/contacts".toList "42".toList (by decide) .GET none
      (fun _ => true)).2.1.1 h) (by decide)
  ⟨by decide, hnot,
   (reachable_under_mount true "/contacts".toList "42".toList (by decide) .GET none
      (fun _ => true)).2.2.2.1,
   ((reachable_under_mount true "/contacts".toList "42".toList (by decide) .GET none
      (fun _ => true)).2.2.2.2 hnot).1,
   ((reachable_under_mount true "/contacts".toList "42".toList (by decide) .GET none
      (fun _ => true)).2.2.2.2 hnot).2⟩

theorem dispatch_append (a b : List Layer) (m : Method) (p : Path) :
    dispatch (a ++ b) m p = (dispatch a m p).or (dispatch b m p) := by
  unfold dispatch
  rw [List.find?_append]
  cases List.find? (fun l => l.accepts m p) a <;> simp

theorem dispatch_append_twice (a c : List Layer) (m : Method) (p : Path) :
    dispatch (a ++ c ++ c) m p = dispatch (a ++ c) m p := by
  rw [dispatch_append (a ++ c) c, dispatch_append a c]
  cases dispatch a m p <;> cases dispatch c m p <;> simp

/-- Claim C10: two calls of `setup` on the same application append the eight routes twice
(every layer occurs in the table twice as often as in the registrations, sixteen layers on
a fresh router) and mount the router twice, yet every request selects by first match the
same handler chain as after one call. -/
theorem setup_twice_same_dispatch (w : World) (cs : Bool) (m : Method) (p : Path)
    (req : Request) :
    (setup (setup w)).stack = w.stack ++ contactLayers ++ contactLayers ∧
    (setup (setup w)).mounts = w.mounts ++ [mountPath, mountPath] ∧
    (∀ l, (setup (setup w)).stack.count l = w.stack.count l + 2 * contactLayers.count l) ∧
    (setup (setup (fresh cs))).stack.length = 16 ∧ contactLayers.Nodup ∧
    dispatch (setup (setup w)).stack m p = dispatch (setup w).stack m p ∧
    appDispatch (setup (setup w)) req = appDispatch (setup w) req := by
  have hd : ∀ rel, dispatch (setup (setup w)).stack req.method rel
      = dispatch (setup w).stack req.method rel :=
    fun rel => dispatch_append_twice w.stack contactLayers req.method rel
  refine ⟨rfl, by simp [setup], ?_, rfl, by decide,
    dispatch_append_twice w.stack contactLayers m p, ?_⟩
  · intro l
    simp only [setup, List.count_append]
    omega
  · simp only [appDispatch, hd]
    simp only [setup, List.append_assoc, List.findSome?_append]
    cases List.findSome? (fun pre => (mountMatch w.caseSensitive pre req.path).bind
      (fun rel => dispatch (w.stack ++ contactLayers) req.method rel)) w.mounts with
    | some x => simp
    | none =>
      simp only [List.findSome?]
      cases (mountMatch w.caseSensitive mountPath req.path).bind
        (fun rel => dispatch (w.stack ++ contactLayers) req.method rel) <;> simp

end ContactsRouter
